import Mathlib

/-!
Verification development for the download-orchestration core of the
`cc-download` Electron application (source: `src/electron/main.ts`).

The TypeScript main-process code is shallowly embedded: pure string and
number manipulation becomes Lean functions over `List Char` / `ℚ`, the
filesystem is an explicit oracle (`FSOracle`) whose `stat` / `readdir` /
`rename` operations return `Except` values (Node errors distinguish
`ENOENT` from other failures), and the single-threaded event-driven
orchestrator is a step function over an explicit state.  JavaScript
`undefined` is modelled with `Option`; the few fields the code only ever
tests for falsiness are modelled as plain `String` with `""` playing the
role of the absent value, as noted at each definition.
-/

/-- The whitespace characters recognised by the JavaScript `\s` regex
class and by `String.prototype.trim` (restricted to the ASCII range; the
source never meets non-ASCII whitespace). -/
def isJsSpace (c : Char) : Bool :=
  c = ' ' || c = '\t' || c = '\n' || c = '\r' || c = Char.ofNat 11 || c = Char.ofNat 12

/-- `trimChars` models `String.prototype.trim` on the character list:
whitespace is removed from both ends. -/
def trimChars (l : List Char) : List Char :=
  ((l.dropWhile isJsSpace).reverse.dropWhile isJsSpace).reverse

/-- `jsTrim` models `raw.trim()` in `handleLine`. -/
def jsTrim (s : String) : String :=
  String.mk (trimChars s.data)

/-- `strStartsWith s p` models JavaScript `s.startsWith(p)`. -/
def strStartsWith (s p : String) : Bool :=
  p.data.isPrefixOf s.data

/-- `strEndsWith s p` models JavaScript `s.endsWith(p)`. -/
def strEndsWith (s p : String) : Bool :=
  p.data.reverse.isPrefixOf s.data.reverse

/-- The set of characters replaced by `sanitizeFilename`, from the regex
`/[\\/:*?"<>|]/g` in `main.ts`. -/
def illegalFilenameChar (c : Char) : Bool :=
  c = '\\' || c = '/' || c = ':' || c = '*' || c = '?' || c = '"' || c = '<' || c = '>' || c = '|'

/-- Helper for `collapseWs`: the flag records whether the previous
character was whitespace (so that a run contributes only one space). -/
def collapseWsAux : Bool → List Char → List Char
  | _, [] => []
  | prevSpace, c :: rest =>
    if isJsSpace c then
      if prevSpace then collapseWsAux true rest
      else ' ' :: collapseWsAux true rest
    else c :: collapseWsAux false rest

/-- `collapseWs` models `.replace(/\s+/g, ' ')`: every maximal run of
whitespace characters is replaced by a single space. -/
def collapseWs (l : List Char) : List Char :=
  collapseWsAux false l

/-- `sanitizeFilename` from `main.ts`:
`input.replace(/[\\/:*?"<>|]/g,'_').replace(/\s+/g,' ').trim().slice(0,120) || 'video'`.
JavaScript `slice` counts UTF-16 code units; all inputs of interest are
in the basic plane, where this coincides with counting characters. -/
def sanitizeFilename (input : String) : String :=
  let replaced := input.data.map (fun c => if illegalFilenameChar c then '_' else c)
  let sliced := (trimChars (collapseWs replaced)).take 120
  if sliced.isEmpty then "video" else String.mk sliced

/-- `pathJoin dir name` models `path.join(dir, name)` for a directory
that does not end in a separator and a plain relative name, the only way
the source ever calls it. -/
def pathJoin (dir name : String) : String :=
  dir ++ "/" ++ name

/-- `pathBasename p` models `path.basename(p)` (POSIX): the part of the
path after the last separator. -/
def pathBasename (p : String) : String :=
  String.mk ((p.data.reverse.takeWhile (fun c => c != '/')).reverse)

/-- `pathExtname p` models `path.extname(p)`: the suffix of the basename
from its last dot, or `""` when there is no dot or the only dot starts
the basename. -/
def pathExtname (p : String) : String :=
  let base := (pathBasename p).data
  let suf := base.reverse.takeWhile (fun c => c != '.')
  if suf.length = base.length then ""
  else if base.length = suf.length + 1 then ""
  else String.mk ('.' :: suf.reverse)

/-- `pathBasenameStrip p ext` models `path.basename(p, ext)`: the
basename, with `ext` removed when it is a proper suffix. -/
def pathBasenameStrip (p ext : String) : String :=
  let b := pathBasename p
  if strEndsWith b ext && b.length > ext.length then
    String.mk (b.data.take (b.data.length - ext.data.length))
  else b

/-- `pathParseName p` models `path.parse(p).name`: the basename without
its extension. -/
def pathParseName (p : String) : String :=
  pathBasenameStrip p (pathExtname p)

/-- `pathResolve` models `path.resolve(p)` for the already-absolute,
already-normalised paths the orchestrator constructs, where it is the
identity. -/
def pathResolve (p : String) : String := p

/-- Splits a character list at every occurrence of `sep`, the semantics
of JavaScript `String.prototype.split` with a one-character separator. -/
def splitOnCharAux (sep : Char) : List Char → List Char → List (List Char)
  | [], acc => [acc.reverse]
  | c :: rest, acc =>
    if c = sep then acc.reverse :: splitOnCharAux sep rest []
    else splitOnCharAux sep rest (c :: acc)

/-- JavaScript `s.split(sep)` for a one-character separator. -/
def splitOnChar (sep : Char) (s : String) : List String :=
  (splitOnCharAux sep s.data []).map String.mk

/-- Splits a character list around the first occurrence of the pattern
`pat`, returning the part after it, or `none` when `pat` never occurs. -/
def afterFirstInfix (pat : List Char) : List Char → Option (List Char)
  | [] => if pat.isEmpty then some [] else none
  | c :: rest =>
    if pat.isPrefixOf (c :: rest) then some ((c :: rest).drop pat.length)
    else afterFirstInfix pat rest

/-- `deriveTitleFromUrl` from `main.ts`, with WHATWG URL parsing modelled
for `scheme://host/seg/.../seg` URLs (a URL without `://` makes the
`new URL` constructor throw, which the source catches by falling back to
`sanitizeFilename('video')`); `decodeURIComponent` is modelled as the
identity. -/
def deriveTitleFromUrl (url : String) : String :=
  match afterFirstInfix "://".data url.data with
  | none => sanitizeFilename "video"
  | some afterScheme =>
    match splitOnCharAux '/' afterScheme [] with
    | [] => sanitizeFilename "video"
    | hostnameChars :: pathSegChars =>
      let hostname := String.mk hostnameChars
      let pathSegs := pathSegChars.map String.mk
      let segments := pathSegs.filter (fun s => s != "")
      let candidate := match segments.getLast? with
        | some s => s
        | none => hostname
      let candidate :=
        if candidate.data.contains '.' then
          let joined := String.intercalate "." (splitOnChar '.' candidate).dropLast
          if joined = "" then candidate else joined
        else candidate
      sanitizeFilename candidate

/-- Case-insensitive literal match (the `/i` regex flag): consumes the
pattern from the front of the input and yields the remainder. -/
def matchCI : List Char → List Char → Option (List Char)
  | [], rest => some rest
  | _ :: _, [] => none
  | p :: ps, c :: cs => if p.toLower = c.toLower then matchCI ps cs else none

/-- Matches one-or-more characters satisfying `f` (a regex `X+` atom),
returning the maximal run and the remainder; fails on an empty run. -/
def splitWhile1 (f : Char → Bool) : List Char → Option (List Char × List Char)
  | [] => none
  | c :: cs =>
    if f c then some (c :: cs.takeWhile f, cs.dropWhile f)
    else none

/-- One attempt of the regex `/\[download\]\s+([\d.]+)%/i` anchored at
the head of `l`; yields the captured group.  The maximal-munch reading
of `\s+` and `[\d.]+` is faithful because backtracking cannot help: any
shorter run of `[\d.]` is followed by a digit or a dot, never `%`. -/
def matchPercentAt (l : List Char) : Option String :=
  match matchCI "[download]".data l with
  | none => none
  | some r1 =>
    match splitWhile1 isJsSpace r1 with
    | none => none
    | some (_, r2) =>
      match splitWhile1 (fun c => c.isDigit || c = '.') r2 with
      | none => none
      | some (tok, r3) =>
        match r3 with
        | '%' :: _ => some (String.mk tok)
        | _ => none

/-- Leftmost-match search: tries `f` at every start position, as the
regex engine does for an unanchored pattern. -/
def scanAux (f : List Char → Option String) : List Char → Option String
  | [] => none
  | c :: cs =>
    match f (c :: cs) with
    | some t => some t
    | none => scanAux f cs

/-- The captured group of `line.match(/\[download\]\s+([\d.]+)%/i)`. -/
def percentCapture (s : String) : Option String :=
  scanAux matchPercentAt s.data

/-- Searches a reversed non-space run for the longest prefix of the run
that is `[^\s]+` followed by `/s` — the backtracking behaviour of the
group `([^\s]+\/s)`.  The first hit while scanning the reversed run is
the longest such prefix. -/
def capSlashSRev : List Char → Option (List Char)
  | 's' :: '/' :: c :: rest => some ('s' :: '/' :: c :: rest)
  | _ :: rest => capSlashSRev rest
  | [] => none

/-- One attempt of `/at\s+([^\s]+\/s)/i` anchored at the head of `l`. -/
def matchSpeedAt (l : List Char) : Option String :=
  match matchCI "at".data l with
  | none => none
  | some r1 =>
    match splitWhile1 isJsSpace r1 with
    | none => none
    | some (_, r2) =>
      match splitWhile1 (fun c => !isJsSpace c) r2 with
      | none => none
      | some (run, _) =>
        match capSlashSRev run.reverse with
        | some rev => some (String.mk rev.reverse)
        | none => none

/-- The captured group of `line.match(/at\s+([^\s]+\/s)/i)`. -/
def speedCapture (s : String) : Option String :=
  scanAux matchSpeedAt s.data

/-- One attempt of `/ETA\s+([^\s]+)/i` anchored at the head of `l`. -/
def matchEtaAt (l : List Char) : Option String :=
  match matchCI "eta".data l with
  | none => none
  | some r1 =>
    match splitWhile1 isJsSpace r1 with
    | none => none
    | some (_, r2) =>
      match splitWhile1 (fun c => !isJsSpace c) r2 with
      | none => none
      | some (run, _) => some (String.mk run)

/-- The captured group of `line.match(/ETA\s+([^\s]+)/i)`. -/
def etaCapture (s : String) : Option String :=
  scanAux matchEtaAt s.data

/-- Numeric value of a digit string, most significant first. -/
def digitsVal (l : List Char) : ℕ :=
  l.foldl (fun a c => 10 * a + (c.toNat - 48)) 0

/-- The scanning part of `Number.parseFloat` restricted to the strings
the percent capture group can produce (digits and dots): the longest
numeric prefix `digits [ '.' digits ]` yields (integer part, fractional
digits value, number of fractional digits); `none` models `NaN` (no
digit in the prefix). -/
def parseFloatParts (s : String) : Option (ℕ × ℕ × ℕ) :=
  let l := s.data
  let ip := l.takeWhile Char.isDigit
  let rest := l.drop ip.length
  let fp := match rest with
    | '.' :: r => r.takeWhile Char.isDigit
    | _ => []
  if ip.isEmpty && fp.isEmpty then none
  else some (digitsVal ip, digitsVal fp, fp.length)

/-- `Number.parseFloat` on a digits-and-dots token.  Rationals model the
decimal values exactly; every value the claims exercise is also exactly
representable as a binary double. -/
def jsParseFloatDigits (s : String) : Option ℚ :=
  (parseFloatParts s).map (fun p => (p.1 : ℚ) + (p.2.1 : ℚ) / (10 : ℚ) ^ p.2.2)

/-- `DownloadStatus` from the renderer/main shared type: the task state
machine's states. -/
inductive DownloadStatus
  | queued
  | downloading
  | processing
  | completed
  | failed
deriving DecidableEq, Repr

/-- The `downloadType` discriminator (`'video' | 'audio'`). -/
inductive DownloadType
  | video
  | audio
deriving DecidableEq, Repr

/-- `DownloadTask` from `main.ts`.  `title` is `title?: string` (with
`undefined` as `none`); `outputFile` and `directory` are optional in the
TypeScript type but only ever tested for falsiness, so they are plain
strings with `""` standing for the absent value.  The live process
handle is not data and is represented by the surrounding oracle. -/
structure DownloadTask where
  id : String
  url : String
  status : DownloadStatus
  outputFile : String
  title : Option String
  thumbnail : Option String
  duration : Option ℚ
  durationText : Option String
  source : Option String
  directory : String
  downloadType : DownloadType
deriving DecidableEq, Repr

/-- The `progress` object of a progress event: exactly the subset of
`{percent, speed, eta}` present in the emitted payload (`undefined`
fields are `none`). -/
structure ProgressInfo where
  percent : Option ℚ
  speed : Option String
  eta : Option String
deriving DecidableEq, Repr

/-- The payload of a `progress` event as built in `handleLine` /
`startPendingTask`: `status` is absent (`none`) in the
destination-announcement payload. -/
structure ProgressPayload where
  id : String
  status : Option DownloadStatus
  title : Option String
  filePath : Option String
  progress : ProgressInfo
  thumbnail : Option String
  duration : Option ℚ
  durationText : Option String
  source : Option String
  directory : String
deriving DecidableEq, Repr

/-- The tagged union broadcast by `broadcastDownloadEvent`. -/
inductive DownloadEvent
  | queuedEvt (id : String)
  | progress (payload : ProgressPayload)
  | completedEvt (id : String) (filePath : String) (title : Option String)
      (directory : String) (fileSize : Option ℕ)
  | failedEvt (id : String) (error : String)
deriving DecidableEq, Repr

/-- JavaScript falsiness of an optional string (`undefined` or `""`). -/
def jsFalsyStr : Option String → Bool
  | none => true
  | some s => s == ""

/-- `handleFailure` from `main.ts`: marks the task failed and broadcasts
a `failed` event carrying the message. -/
def handleFailure (task : DownloadTask) (message : String) :
    DownloadTask × Option DownloadEvent :=
  ({ task with status := .failed }, some (.failedEvt task.id message))

/-- The destination-announcement marker. -/
def destinationMarker : String := "[download] Destination:"

/-- `handleLine` from `setupProcessListeners` in `main.ts`: parses one
trimmed output line into at most one task mutation plus broadcast event.
Branch order is the source's: destination marker, percent update,
merge/remux marker, error marker, otherwise ignored.  In the destination
branch `line.replace(marker, '')` drops the marker, which is a prefix of
`line` there. -/
def handleLine (task : DownloadTask) (raw : String) :
    DownloadTask × Option DownloadEvent :=
  let line := jsTrim raw
  if line = "" then (task, none)
  else if strStartsWith line destinationMarker then
    let destination := jsTrim (String.mk (line.data.drop destinationMarker.data.length))
    let title1 := if jsFalsyStr task.title then some (pathParseName destination) else task.title
    let task1 := { task with outputFile := destination, title := title1 }
    (task1, some (.progress
      { id := task.id
        status := none
        title := title1
        filePath := some destination
        progress :=
          { percent := some (if task.status = .completed then 100 else 0)
            speed := none
            eta := none }
        thumbnail := task.thumbnail
        duration := task.duration
        durationText := task.durationText
        source := task.source
        directory := task.directory }))
  else
    match percentCapture line with
    | some tok =>
      let percent : ℚ := match jsParseFloatDigits tok with
        | some q => q
        | none => 0
      let task1 := { task with status := .downloading }
      (task1, some (.progress
        { id := task.id
          status := some .downloading
          title := task.title
          filePath := some task.outputFile
          progress :=
            { percent := some percent
              speed := speedCapture line
              eta := etaCapture line }
          thumbnail := task.thumbnail
          duration := task.duration
          durationText := task.durationText
          source := task.source
          directory := task.directory }))
    | none =>
      if strStartsWith line "[Merger]" || strStartsWith line "[ffmpeg]" then
        let task1 := { task with status := .processing }
        (task1, some (.progress
          { id := task.id
            status := some .processing
            title := task.title
            filePath := some task.outputFile
            progress := { percent := some 100, speed := none, eta := none }
            thumbnail := task.thumbnail
            duration := task.duration
            durationText := task.durationText
            source := task.source
            directory := task.directory }))
      else if strStartsWith line "ERROR" then
        handleFailure task line
      else (task, none)

/-- Node filesystem errors, as far as the source distinguishes them:
`ENOENT` (treated as "the path is free / absent") versus anything else
(rethrown by the resolver loops). -/
inductive FsError
  | enoent
  | other (msg : String)
deriving DecidableEq, Repr

/-- The fields of `fs.Stats` the source reads. -/
structure FSStat where
  mtimeMs : ℤ
  size : ℕ
deriving DecidableEq, Repr

/-- The filesystem, as the trace of answers the `node:fs/promises` calls
would give: `stat`, `readdir` (names of directory entries) and
`rename`.  An `Except.error` models a rejected promise. -/
structure FSOracle where
  stat : String → Except FsError FSStat
  readdir : String → Except FsError (List String)
  rename : String → String → Except FsError Unit

/-- A pure filesystem built from one directory listing: `entries` maps
absolute paths to stats, `names` is what `readdir dir` returns. -/
def fsOfList (entries : List (String × FSStat)) (dir : String) (names : List String) : FSOracle where
  stat p := match entries.lookup p with
    | some s => .ok s
    | none => .error .enoent
  readdir d := if d = dir then .ok names else .error (.other "ENOENT")
  rename _ _ := .ok ()

/-- The candidate base name probed at a given attempt by
`ensureUniqueOutputPath`: `base`, then `base(1)`, `base(2)`, …. -/
def uniqueCandidateBase (baseName : String) (attempt : ℕ) : String :=
  if attempt = 0 then baseName else baseName ++ "(" ++ toString attempt ++ ")"

/-- The `while (true)` probing loop of `ensureUniqueOutputPath`.  The
source loop is unbounded; `fuel` only bounds the model, and running out
of fuel is reported as an error so that the surrounding `try`/`catch`
treatment is unchanged. -/
def ensureUniqueLoop (fs : FSOracle) (directory baseName ext : String) :
    ℕ → ℕ → Except FsError (String × String)
  | _, 0 => .error (.other "model: loop bound exhausted")
  | attempt, fuel + 1 =>
    let candidateBase := uniqueCandidateBase baseName attempt
    let template := pathJoin directory (candidateBase ++ ".%(ext)s")
    let absolutePath := pathJoin directory (candidateBase ++ ext)
    match fs.stat absolutePath with
    | .ok _ => ensureUniqueLoop fs directory baseName ext (attempt + 1) fuel
    | .error .enoent => .ok (template, absolutePath)
    | .error e => .error e

/-- `ensureUniqueOutputPath` from `main.ts`: returns the
`(template, absolutePath)` pair.  `now` stands for `Date.now()` in the
untitled fallback. -/
def ensureUniqueOutputPath (fs : FSOracle) (fuel : ℕ) (directory : String)
    (rawTitle : Option String) (now : ℕ) (overwrite : Bool) (ext : String) :
    Except FsError (String × String) :=
  let baseName := sanitizeFilename (rawTitle.getD ("video-" ++ toString now))
  if overwrite then
    .ok (pathJoin directory (baseName ++ ".%(ext)s"), pathJoin directory (baseName ++ ext))
  else ensureUniqueLoop fs directory baseName ext 0 fuel

/-- The candidate path probed at a given attempt by
`ensureFinalFilePath`: `name`, then `name(1)`, … with the concrete
extension appended. -/
def finalCandidatePath (directory sanitized safeExt : String) (attempt : ℕ) : String :=
  let candidateName := if attempt = 0 then sanitized else sanitized ++ "(" ++ toString attempt ++ ")"
  pathJoin directory (candidateName ++ safeExt)

/-- The `while (true)` probing loop of `ensureFinalFilePath`: a
candidate equal (under `path.resolve`) to the current file's path is
accepted immediately, before any disk probe. -/
def ensureFinalLoop (fs : FSOracle) (directory sanitized safeExt : String)
    (currentPath : Option String) : ℕ → ℕ → Except FsError String
  | _, 0 => .error (.other "model: loop bound exhausted")
  | attempt, fuel + 1 =>
    let candidatePath := finalCandidatePath directory sanitized safeExt attempt
    if currentPath.any (fun cp => pathResolve candidatePath = pathResolve cp) then
      .ok candidatePath
    else
      match fs.stat candidatePath with
      | .ok _ => ensureFinalLoop fs directory sanitized safeExt currentPath (attempt + 1) fuel
      | .error .enoent => .ok candidatePath
      | .error e => .error e

/-- `ensureFinalFilePath` from `main.ts` (the post-download rename
resolver). -/
def ensureFinalFilePath (fs : FSOracle) (fuel : ℕ) (directory rawTitle ext : String)
    (currentPath : Option String) : Except FsError String :=
  let sanitized := sanitizeFilename rawTitle
  let safeExt := if strStartsWith ext "." then ext else "." ++ ext
  ensureFinalLoop fs directory sanitized safeExt currentPath 0 fuel

/-- The expected extension per media kind, hard-coded in
`finalizeDownload`: `task.downloadType === 'audio' ? '.mp3' : '.mp4'`. -/
def expectedExtFor (t : DownloadType) : String :=
  match t with
  | .audio => ".mp3"
  | .video => ".mp4"

/-- The request-time expected extension computed in the
`download:start` handler of `registerDownloadHandlers`: audio requests
with `audioFormat === 'm4a'` get `.m4a`; everything else the same
hard-coded pair. -/
def requestExpectedExt (downloadType : DownloadType) (audioFormat : Option String) : String :=
  let e := match downloadType with
    | .audio => ".mp3"
    | .video => ".mp4"
  if downloadType = .audio ∧ audioFormat = some "m4a" then ".m4a" else e

/-- `stat`s every matched directory entry (the `Promise.all` of
strategy 3 in `finalizeDownload`); any rejection rejects the whole
batch. -/
def listStats (fs : FSOracle) (dir : String) : List String → Except FsError (List (String × FSStat))
  | [] => .ok []
  | f :: rest =>
    match fs.stat (pathJoin dir f) with
    | .error e => .error e
    | .ok s =>
      match listStats fs dir rest with
      | .error e => .error e
      | .ok r => .ok ((pathJoin dir f, s) :: r)

/-- First element of `fileStats.sort((a, b) => b.mtime - a.mtime)`: the
entry with the greatest `mtime`, ties resolved to the earliest listed
(V8's sort is stable). -/
def newestByMtime : List (String × FSStat) → Option String
  | [] => none
  | x :: xs => some ((xs.foldl (fun best y => if y.2.mtimeMs > best.2.mtimeMs then y else best) x).1)

/-- The file-location part of `finalizeDownload` (方法 1/2/3 in the
source): the previously recorded output path, then the same base name
with the kind's expected extension, then the most recently modified
directory entry with that extension. -/
def locateActualFile (fs : FSOracle) (task : DownloadTask) : Option String :=
  match fs.stat task.outputFile with
  | .ok _ => some task.outputFile
  | .error _ =>
    let baseName := pathBasenameStrip task.outputFile (pathExtname task.outputFile)
    let expectedExt := expectedExtFor task.downloadType
    let expectedFile := pathJoin task.directory (baseName ++ expectedExt)
    match fs.stat expectedFile with
    | .ok _ => some expectedFile
    | .error _ =>
      match fs.readdir task.directory with
      | .error _ => none
      | .ok files =>
        let matchedFiles := files.filter (fun f => strEndsWith f (expectedExtFor task.downloadType))
        if matchedFiles.isEmpty then none
        else
          match listStats fs task.directory matchedFiles with
          | .error _ => none
          | .ok fileStats => newestByMtime fileStats

/-- The outcome of `finalizeDownload`: its return value (`none` models
`undefined`), the mutated task, and the `rename` invocation it issued,
if any. -/
structure FinalizeResult where
  result : Option String
  task : DownloadTask
  renameOp : Option (String × String)
deriving DecidableEq, Repr

/-- `finalizeDownload` from `main.ts`.  The outer `try`/`catch` swallows
every error and returns the task's then-current `outputFile`; strategy
errors inside are absorbed exactly where the source catches them. -/
def finalizeDownload (fs : FSOracle) (fuel : ℕ) (task0 : DownloadTask) : FinalizeResult :=
  if task0.outputFile = "" ∨ task0.directory = "" then ⟨none, task0, none⟩
  else
    let directory := task0.directory
    let desiredTitle := match task0.title with
      | some t => t
      | none => deriveTitleFromUrl task0.url
    match locateActualFile fs task0 with
    | none => ⟨some task0.outputFile, task0, none⟩
    | some actualFile =>
      let task1 := { task0 with outputFile := actualFile }
      let ext := if pathExtname actualFile = "" then expectedExtFor task0.downloadType
        else pathExtname actualFile
      match ensureFinalFilePath fs fuel directory desiredTitle ext (some actualFile) with
      | .error _ => ⟨some task1.outputFile, task1, none⟩
      | .ok targetPath =>
        if pathResolve targetPath = pathResolve actualFile then
          ⟨some task1.outputFile, task1, none⟩
        else
          match fs.rename actualFile targetPath with
          | .ok _ => ⟨some targetPath, { task1 with outputFile := targetPath }, some (actualFile, targetPath)⟩
          | .error _ => ⟨some task1.outputFile, task1, some (actualFile, targetPath)⟩

/-- The `child.once('close', ...)` handler of `setupProcessListeners`
(after the readline interfaces are closed and the task is removed from
the live registry): on exit code 0 the task is marked completed,
finalized, its title synced from the final path, and a `completed` event
is emitted; on any other code a failure is reported unless the task
already failed. -/
def handleProcessClose (fs : FSOracle) (fuel : ℕ) (task0 : DownloadTask)
    (code : Option ℤ) : DownloadTask × List DownloadEvent :=
  if code = some 0 then
    let task1 := { task0 with status := .completed }
    let fin := finalizeDownload fs fuel task1
    let task2 := fin.task
    let pathToCheck := match fin.result with
      | some p => p
      | none => task2.outputFile
    let task3 :=
      if pathToCheck ≠ "" then
        let ext := pathExtname pathToCheck
        let finalFileName := pathBasenameStrip pathToCheck ext
        if some finalFileName ≠ task2.title then { task2 with title := some finalFileName }
        else task2
      else task2
    let fileSize : Option ℕ :=
      if pathToCheck ≠ "" then
        match fs.stat pathToCheck with
        | .ok s => some s.size
        | .error _ => none
      else none
    (task3, [.completedEvt task3.id pathToCheck task3.title task3.directory fileSize])
  else if task0.status ≠ .failed then
    let fe := handleFailure task0
      ("下载进程退出，退出码 " ++ (match code with | some c => toString c | none => "未知"))
    (fe.1, match fe.2 with | some ev => [ev] | none => [])
  else (task0, [])

/-- `AppSettings` from `main.ts`.  `maxConcurrentDownloads` is kept as
the raw persisted value after JavaScript `Number(...)` coercion: `none`
models a value that does not coerce to a finite number (`NaN` or an
infinity). -/
structure AppSettings where
  downloadDir : Option String
  maxConcurrentDownloads : Option ℚ

/-- `clampConcurrentDownloads` from `main.ts`: a non-finite coercion
yields the default `3`; otherwise `Math.round` (which is `⌊x + 1/2⌋`,
exactly Mathlib's `round`) followed by clamping into `[1, 10]`. -/
def clampConcurrentDownloads (input : Option ℚ) : ℤ :=
  match input with
  | none => 3
  | some parsed => min (max (round parsed) 1) 10

/-- `getMaxConcurrentDownloads` from `main.ts`: the admission capacity,
re-read from settings and clamped on every call. -/
def getMaxConcurrentDownloads (settings : AppSettings) : ℤ :=
  clampConcurrentDownloads settings.maxConcurrentDownloads

/-- The `settings:get-max-concurrent-downloads` IPC handler: the
settings getter also clamps on every read. -/
def ipcGetMaxConcurrentDownloads (settings : AppSettings) : ℤ :=
  clampConcurrentDownloads settings.maxConcurrentDownloads

/-- `PendingTask` from `main.ts`, restricted to the fields the queue
and admission logic inspect; engine flags and binary paths are consumed
only by the spawned process and are left out of the model. -/
structure PendingTask where
  id : String
  url : String
  downloadType : DownloadType
  directory : String
  finalPathAbsolute : String
  initialTitle : String
deriving DecidableEq, Repr

/-- `activeDownloads.set(id, task)`: the key set of the live registry;
setting an existing key does not grow it. -/
def mapSet (m : List String) (id : String) : List String :=
  if m.contains id then m else m ++ [id]

/-- The orchestrator's two collections: the FIFO `pendingQueue` and the
key set of the `activeDownloads` map. -/
structure QueueState where
  pendingQueue : List PendingTask
  activeDownloads : List String
deriving DecidableEq, Repr

/-- The drain loop of `processQueue` from `main.ts`: while entries are
pending, re-read the clamped capacity, stop when the live count reaches
it, otherwise shift the oldest entry and start it.  `spawnOk` is the
spawn oracle: a `false` answer models `startPendingTask` throwing (the
loop reports that entry failed and continues); a `true` answer models
the successful spawn that registers the task.  Drains are serialized by
the `isProcessingQueue` flag in the single-threaded source, so one
terminating loop models one drain. -/
def processQueue (settings : AppSettings) (spawnOk : String → Bool) :
    List PendingTask → List String → QueueState
  | [], active => ⟨[], active⟩
  | p :: rest, active =>
    let maxConcurrent := getMaxConcurrentDownloads settings
    if (active.length : ℤ) ≥ maxConcurrent then ⟨p :: rest, active⟩
    else if spawnOk p.id then processQueue settings spawnOk rest (mapSet active p.id)
    else processQueue settings spawnOk rest active

/-- `processQueue` including the `forceQuit` early return. -/
def processQueueRun (forceQuit : Bool) (settings : AppSettings) (spawnOk : String → Bool)
    (st : QueueState) : QueueState :=
  if forceQuit then st
  else processQueue settings spawnOk st.pendingQueue st.activeDownloads

/-- The orchestrator events that touch the two collections while the
app runs: `enqueuePendingTask` (a `start` call) pushes and drains; a
process `close` deletes the task from the live registry and drains. -/
inductive QueueEvent
  | enqueue (p : PendingTask)
  | processClose (id : String)

/-- One orchestrator step. -/
def queueStep (settings : AppSettings) (spawnOk : String → Bool) (forceQuit : Bool)
    (st : QueueState) : QueueEvent → QueueState
  | .enqueue p =>
    processQueueRun forceQuit settings spawnOk ⟨st.pendingQueue ++ [p], st.activeDownloads⟩
  | .processClose id =>
    processQueueRun forceQuit settings spawnOk
      ⟨st.pendingQueue, st.activeDownloads.filter (fun x => x != id)⟩

/-- A whole run from the initial empty state. -/
def runQueue (settings : AppSettings) (spawnOk : String → Bool) (forceQuit : Bool)
    (events : List QueueEvent) : QueueState :=
  events.foldl (queueStep settings spawnOk forceQuit) ⟨[], []⟩

/-- A filesystem oracle on which every `stat` reports `ENOENT` and
`readdir` is rejected. -/
def fsEnoent : FSOracle where
  stat _ := .error .enoent
  readdir _ := .error (.other "EACCES")
  rename _ _ := .ok ()

/-- A representative live task used for concrete evaluations. -/
def sampleTask : DownloadTask where
  id := "t1"
  url := "https://example.com/v"
  status := .queued
  outputFile := "/d/clip.mp4"
  title := some "clip"
  thumbnail := none
  duration := none
  durationText := none
  source := none
  directory := "/d"
  downloadType := .video

/-- C1: the claim states that a task that parsed an explicit
error-marker line and whose process then exits with code 0 stays
`failed` and gets no `completed` event.  The code does the opposite: the
`ERROR` line marks the task failed and emits a `failed` event, but the
`close` handler's `code === 0` branch overwrites the status with
`completed` and emits a `completed` event — the `status !== 'failed'`
guard only protects the non-zero branch.  Evaluated here at a concrete
failing input. -/
theorem error_line_then_zero_exit_reports_completed :
    (handleLine sampleTask "ERROR: unable to download video data").1.status
        = DownloadStatus.failed
      ∧ (handleLine sampleTask "ERROR: unable to download video data").2
        = some (DownloadEvent.failedEvt "t1" "ERROR: unable to download video data")
      ∧ (handleProcessClose fsEnoent 8
            (handleLine sampleTask "ERROR: unable to download video data").1
            (some 0)).1.status
        = DownloadStatus.completed
      ∧ (handleProcessClose fsEnoent 8
            (handleLine sampleTask "ERROR: unable to download video data").1
            (some 0)).2
        = [DownloadEvent.completedEvt "t1" "/d/clip.mp4" (some "clip") "/d" none] := by
  decide

/-- The clamped capacity is at least 1. -/
lemma one_le_getMax (s : AppSettings) : 1 ≤ getMaxConcurrentDownloads s := by
  unfold getMaxConcurrentDownloads clampConcurrentDownloads
  cases s.maxConcurrentDownloads with
  | none => norm_num
  | some q => simp only []; omega

/-- Registering a task grows the live registry by at most one key. -/
lemma mapSet_length_le (m : List String) (id : String) :
    (mapSet m id).length ≤ m.length + 1 := by
  unfold mapSet
  split
  · omega
  · simp

/-- The drain loop preserves the capacity bound: it admits an entry only
while the live count is strictly below the clamped capacity. -/
lemma processQueue_bound (settings : AppSettings) (spawnOk : String → Bool) :
    ∀ pending active, (active.length : ℤ) ≤ getMaxConcurrentDownloads settings →
      (((processQueue settings spawnOk pending active).activeDownloads.length : ℤ)
        ≤ getMaxConcurrentDownloads settings) := by
  intro pending
  induction pending with
  | nil => intro active h; simpa [processQueue] using h
  | cons p rest ih =>
    intro active h
    unfold processQueue
    by_cases hge : (active.length : ℤ) ≥ getMaxConcurrentDownloads settings
    · simp [hge]; exact h
    · simp only [hge, if_false]
      by_cases hs : spawnOk p.id
      · simp only [hs, if_true]
        apply ih
        have := mapSet_length_le active p.id
        push_cast at h hge ⊢
        omega
      · simp only [hs, if_false]
        exact ih active h

/-- Every orchestrator step preserves the capacity bound. -/
lemma queueStep_bound (settings : AppSettings) (spawnOk : String → Bool) (forceQuit : Bool)
    (st : QueueState) (ev : QueueEvent)
    (h : (st.activeDownloads.length : ℤ) ≤ getMaxConcurrentDownloads settings) :
    (((queueStep settings spawnOk forceQuit st ev).activeDownloads.length : ℤ)
      ≤ getMaxConcurrentDownloads settings) := by
  cases ev with
  | enqueue p =>
    unfold queueStep processQueueRun
    by_cases hq : forceQuit = true
    · simpa [hq] using h
    · simpa [hq] using processQueue_bound settings spawnOk _ _ h
  | processClose id =>
    unfold queueStep processQueueRun
    have hf : ((st.activeDownloads.filter (fun x => x != id)).length : ℤ)
        ≤ getMaxConcurrentDownloads settings := by
      have := List.length_filter_le (fun x => x != id) st.activeDownloads
      omega
    by_cases hq : forceQuit = true
    · simpa [hq] using hf
    · simpa [hq] using processQueue_bound settings spawnOk _ _ hf

/-- C2: over every sequence of `start` calls and queue-drain steps, the
live registry never exceeds the clamped `maxConcurrentDownloads`
capacity, which the drain loop re-reads (`getMaxConcurrentDownloads`)
before each admission and compares strictly against the live count. -/
theorem concurrency_bound (settings : AppSettings) (spawnOk : String → Bool)
    (forceQuit : Bool) (events : List QueueEvent) :
    ((runQueue settings spawnOk forceQuit events).activeDownloads.length : ℤ)
      ≤ getMaxConcurrentDownloads settings := by
  unfold runQueue
  have hinit : (((⟨[], []⟩ : QueueState)).activeDownloads.length : ℤ)
      ≤ getMaxConcurrentDownloads settings := by
    have := one_le_getMax settings
    simp only [List.length_nil]
    omega
  generalize (⟨[], []⟩ : QueueState) = st at hinit ⊢
  induction events generalizing st with
  | nil => simpa using hinit
  | cons e rest ih =>
    simp only [List.foldl_cons]
    exact ih _ (queueStep_bound settings spawnOk forceQuit st e hinit)

/-- Whether a `stat` call succeeded (the probed path exists). -/
def statOk (e : Except FsError FSStat) : Bool :=
  match e with
  | .ok _ => true
  | .error _ => false

/-- A directory holding only `clip.mp4`. -/
def fsClip1 : FSOracle := fsOfList [("/d/clip.mp4", ⟨0, 0⟩)] "/d" ["clip.mp4"]

/-- A directory holding `clip.mp4` and `clip(1).mp4`. -/
def fsClip2 : FSOracle :=
  fsOfList [("/d/clip.mp4", ⟨0, 0⟩), ("/d/clip(1).mp4", ⟨1, 0⟩)] "/d" ["clip.mp4", "clip(1).mp4"]

/-- The probing loop returns the first free candidate: if every suffix
below `k` is taken and `k` is free, the loop started at or below `k`
lands exactly on `k`. -/
lemma ensureUniqueLoop_first_free (fs : FSOracle) (directory baseName ext : String) (k : ℕ)
    (hex : ∀ j, j < k →
      statOk (fs.stat (pathJoin directory (uniqueCandidateBase baseName j ++ ext))) = true)
    (hfree : fs.stat (pathJoin directory (uniqueCandidateBase baseName k ++ ext))
      = .error .enoent) :
    ∀ fuel attempt, attempt ≤ k → k - attempt < fuel →
      ensureUniqueLoop fs directory baseName ext attempt fuel =
        .ok (pathJoin directory (uniqueCandidateBase baseName k ++ ".%(ext)s"),
             pathJoin directory (uniqueCandidateBase baseName k ++ ext)) := by
  intro fuel
  induction fuel with
  | zero => intro attempt h1 h2; omega
  | succ fuel ih =>
    intro attempt h1 h2
    unfold ensureUniqueLoop
    rcases eq_or_lt_of_le h1 with heq | hlt
    · subst heq
      dsimp only
      rw [hfree]
    · have hok := hex attempt hlt
      cases hstat : fs.stat (pathJoin directory (uniqueCandidateBase baseName attempt ++ ext)) with
      | ok s =>
        dsimp only
        rw [hstat]
        exact ih (attempt + 1) hlt (by omega)
      | error e =>
        rw [hstat] at hok
        simp [statOk] at hok

/-- C3: in non-overwrite mode the resolver probes `base`, `base(1)`, …
in increasing suffix order and returns the first candidate whose
absolute path does not exist; with `clip.mp4` present, title `clip`
resolves to `clip(1).mp4`, and with `clip(1).mp4` also present to
`clip(2).mp4`. -/
theorem ensureUniqueOutputPath_first_free :
    (∀ (fs : FSOracle) (fuel : ℕ) (directory title : String) (now : ℕ) (ext : String) (k : ℕ),
      (∀ j, j < k →
        statOk (fs.stat (pathJoin directory
          (uniqueCandidateBase (sanitizeFilename title) j ++ ext))) = true) →
      fs.stat (pathJoin directory (uniqueCandidateBase (sanitizeFilename title) k ++ ext))
        = .error .enoent →
      k < fuel →
      ensureUniqueOutputPath fs fuel directory (some title) now false ext =
        .ok (pathJoin directory (uniqueCandidateBase (sanitizeFilename title) k ++ ".%(ext)s"),
             pathJoin directory (uniqueCandidateBase (sanitizeFilename title) k ++ ext)))
    ∧ ensureUniqueOutputPath fsClip1 10 "/d" (some "clip") 0 false ".mp4"
        = .ok ("/d/clip(1).%(ext)s", "/d/clip(1).mp4")
    ∧ ensureUniqueOutputPath fsClip2 10 "/d" (some "clip") 0 false ".mp4"
        = .ok ("/d/clip(2).%(ext)s", "/d/clip(2).mp4") := by
  refine ⟨?_, by rfl, by rfl⟩
  intro fs fuel directory title now ext k hex hfree hk
  unfold ensureUniqueOutputPath
  simp only [Option.getD, Bool.false_eq_true, if_false]
  exact ensureUniqueLoop_first_free fs directory (sanitizeFilename title) ext k hex hfree fuel 0
    (Nat.zero_le k) (by omega)

/-- Witness for C3's general part at a concrete input. -/
theorem ensureUniqueOutputPath_first_free_witness :
    ensureUniqueOutputPath fsClip1 10 "/d" (some "clip") 0 false ".mp4"
      = .ok ("/d/clip(1).%(ext)s", "/d/clip(1).mp4") :=
  ensureUniqueOutputPath_first_free.1 fsClip1 10 "/d" "clip" 0 ".mp4" 1
    (by decide) (by rfl) (by norm_num)

/-- Characters surviving whitespace collapse are a space or were in the
input. -/
lemma mem_collapseWsAux : ∀ (b : Bool) (l : List Char) (c : Char),
    c ∈ collapseWsAux b l → c = ' ' ∨ c ∈ l := by
  intro b l
  induction l generalizing b with
  | nil => intro c h; simp [collapseWsAux] at h
  | cons x rest ih =>
    intro c h
    unfold collapseWsAux at h
    by_cases hx : isJsSpace x = true
    · rw [if_pos hx] at h
      by_cases hb : b = true
      · rw [if_pos hb] at h
        rcases ih true c h with h' | h'
        · exact Or.inl h'
        · exact Or.inr (List.mem_cons_of_mem x h')
      · rw [if_neg hb] at h
        rcases List.mem_cons.mp h with h' | h'
        · exact Or.inl h'
        · rcases ih true c h' with h'' | h''
          · exact Or.inl h''
          · exact Or.inr (List.mem_cons_of_mem x h'')
    · rw [if_neg hx] at h
      rcases List.mem_cons.mp h with h' | h'
      · exact Or.inr (h' ▸ List.mem_cons_self x rest)
      · rcases ih false c h' with h'' | h''
        · exact Or.inl h''
        · exact Or.inr (List.mem_cons_of_mem x h'')

/-- Trimming only removes characters. -/
lemma mem_trimChars {l : List Char} {c : Char} (h : c ∈ trimChars l) : c ∈ l := by
  unfold trimChars at h
  rw [List.mem_reverse] at h
  have h2 := (List.dropWhile_sublist isJsSpace).mem h
  rw [List.mem_reverse] at h2
  exact (List.dropWhile_sublist isJsSpace).mem h2

/-- C4 counterexample: the claim's two worked examples are both wrong on
the code.  `"A:B/C*D?"` sanitizes to `"A_B_C_D_"` (the trailing `?`
becomes `_`, and underscores are not trimmed), and a title of only
illegal characters becomes a string of underscores — which is non-empty,
so the `"video"` fallback is not used. -/
theorem sanitizeFilename_spec_examples_false :
    sanitizeFilename "A:B/C*D?" = "A_B_C_D_" ∧ "A_B_C_D_" ≠ "A_B_C_D"
      ∧ sanitizeFilename "\\/:*?\"<>|" = "_________" ∧ "_________" ≠ "video" := by
  decide

/-- C4 (amended): sanitization replaces every character of the illegal
set with `_`, collapses whitespace runs, trims, truncates to 120
characters and falls back to `"video"` only when the result is empty
(empty or all-whitespace input); `"A:B/C*D?"` gives `"A_B_C_D_"` and an
all-illegal title gives all underscores, not the fallback. -/
theorem sanitizeFilename_behavior :
    (∀ s, (sanitizeFilename s).length ≤ 120)
    ∧ (∀ s, sanitizeFilename s ≠ "")
    ∧ (∀ s c, c ∈ (sanitizeFilename s).data → illegalFilenameChar c = false)
    ∧ sanitizeFilename "A:B/C*D?" = "A_B_C_D_"
    ∧ sanitizeFilename "\\/:*?\"<>|" = "_________"
    ∧ sanitizeFilename "" = "video"
    ∧ sanitizeFilename "   " = "video"
    ∧ sanitizeFilename "  A   B  " = "A B" := by
  refine ⟨?_, ?_, ?_, by decide, by decide, by decide, by decide, by decide⟩
  · intro s
    unfold sanitizeFilename
    dsimp only
    split
    · decide
    · simp only [String.length]
      exact le_trans (List.length_take_le _ _) (by omega)
  · intro s
    unfold sanitizeFilename
    dsimp only
    split
    · decide
    · intro hcontra
      rw [String.ext_iff] at hcontra
      simp only [String.data] at hcontra
      simp_all [List.isEmpty_iff]
  · intro s c hc
    unfold sanitizeFilename at hc
    dsimp only at hc
    split at hc
    · revert hc
      revert c
      decide
    · simp only [String.data] at hc
      have h1 := mem_trimChars ((List.take_sublist _ _).mem hc)
      rcases mem_collapseWsAux false _ c h1 with h2 | h2
      · subst h2; decide
      · rcases List.mem_map.mp h2 with ⟨a, _, ha⟩
        by_cases hil : illegalFilenameChar a = true
        · rw [if_pos hil] at ha
          subst ha; decide
        · rw [if_neg hil] at ha
          subst ha
          simpa using hil

/-- Witness for C4's hypothesis-bearing conjunct at a concrete input. -/
theorem sanitizeFilename_behavior_witness :
    illegalFilenameChar 'A' = false :=
  sanitizeFilename_behavior.2.2.1 "A" 'A' (by decide)

/-- An audio task whose recorded output path does not exist after the
download (the engine produced a differently-named file). -/
def cexAudioTask : DownloadTask where
  id := "a1"
  url := "https://example.com/a"
  status := .completed
  outputFile := "/d/v.opus"
  title := some "v"
  thumbnail := none
  duration := none
  durationText := none
  source := none
  directory := "/d"
  downloadType := .audio

/-- A directory holding only `v.m4a` — the container the request
selected via `audioFormat: 'm4a'`. -/
def fsM4a : FSOracle := fsOfList [("/d/v.m4a", ⟨5, 100⟩)] "/d" ["v.m4a"]

/-- C5 counterexample: the claim says strategy (2) probes the base name
with "the selected audio container"'s extension.  The request-time
handler does honour `audioFormat: 'm4a'` (`requestExpectedExt`), but
`finalizeDownload` hard-codes `.mp3` for audio: with the produced file
`v.m4a` present in the directory, the locator finds nothing at all (its
strategy (2) probes `v.mp3` and strategy (3) filters on `.mp3`), and
finalization leaves the stale `.opus` path unchanged instead of
returning `v.m4a`. -/
theorem finalize_ignores_selected_audio_container :
    requestExpectedExt DownloadType.audio (some "m4a") = ".m4a"
      ∧ cexAudioTask.downloadType = DownloadType.audio
      ∧ statOk (fsM4a.stat (pathJoin "/d"
          ("v" ++ requestExpectedExt DownloadType.audio (some "m4a")))) = true
      ∧ locateActualFile fsM4a cexAudioTask = none
      ∧ (finalizeDownload fsM4a 8 cexAudioTask).result = some "/d/v.opus"
      ∧ (finalizeDownload fsM4a 8 cexAudioTask).renameOp = none :=
  ⟨by decide, by decide, by decide, by decide, by rfl, by rfl⟩

/-- The first element of the descending stable sort is the earliest
entry of maximal `mtime`. -/
lemma foldl_max_spec (xs : List (String × FSStat)) :
    ∀ x : String × FSStat,
      (xs.foldl (fun best y => if y.2.mtimeMs > best.2.mtimeMs then y else best) x) ∈ x :: xs
      ∧ x.2.mtimeMs ≤ (xs.foldl
          (fun best y => if y.2.mtimeMs > best.2.mtimeMs then y else best) x).2.mtimeMs
      ∧ ∀ y ∈ xs, y.2.mtimeMs ≤ (xs.foldl
          (fun best y => if y.2.mtimeMs > best.2.mtimeMs then y else best) x).2.mtimeMs := by
  induction xs with
  | nil => intro x; exact ⟨List.mem_cons_self x [], le_refl _, by simp⟩
  | cons y ys ih =>
    intro x
    simp only [List.foldl_cons]
    by_cases hgt : y.2.mtimeMs > x.2.mtimeMs
    · simp only [if_pos hgt]
      rcases ih y with ⟨hmem, hle, hall⟩
      refine ⟨List.mem_cons_of_mem x hmem, le_trans (le_of_lt hgt) hle, ?_⟩
      intro z hz
      rcases List.mem_cons.mp hz with h | h
      · exact h ▸ hle
      · exact hall z h
    · simp only [if_neg hgt]
      rcases ih x with ⟨hmem, hle, hall⟩
      refine ⟨?_, hle, ?_⟩
      · rcases List.mem_cons.mp hmem with h | h
        · rw [h]; exact List.mem_cons_self _ _
        · exact List.mem_cons_of_mem x (List.mem_cons_of_mem y h)
      · intro z hz
        rcases List.mem_cons.mp hz with h | h
        · exact h ▸ le_trans (le_of_not_lt hgt) hle
        · exact hall z h

/-- The batch `stat` preserves the entry count when it succeeds. -/
lemma listStats_length (fs : FSOracle) (dir : String) :
    ∀ l r, listStats fs dir l = .ok r → r.length = l.length := by
  intro l
  induction l with
  | nil =>
    intro r h
    unfold listStats at h
    injection h with h'
    subst h'
    rfl
  | cons f rest ih =>
    intro r h
    unfold listStats at h
    cases hstat : fs.stat (pathJoin dir f) with
    | ok s =>
      rw [hstat] at h
      cases hrest : listStats fs dir rest with
      | ok r' =>
        rw [hrest] at h
        injection h with h'
        subst h'
        simp [ih r' hrest]
      | error e =>
        rw [hrest] at h
        cases h
    | error e =>
      rw [hstat] at h
      cases h

/-- C5 (amended): finalization locates the produced file by an ordered
strategy whose first success wins — (1) the recorded output path, (2)
the same base name with the hard-coded expected extension (`.mp4` for
video, `.mp3` for audio, regardless of the per-request selected audio
container), (3) the most recently modified directory entry with that
extension — and (4) when none is found the original path is left
unchanged, the task untouched and no rename issued. -/
theorem finalizeDownload_location_strategy :
    (∀ (fs : FSOracle) (task : DownloadTask) (s : FSStat),
      fs.stat task.outputFile = .ok s →
      locateActualFile fs task = some task.outputFile)
    ∧ (∀ (fs : FSOracle) (task : DownloadTask) (e : FsError) (s : FSStat),
      fs.stat task.outputFile = .error e →
      fs.stat (pathJoin task.directory
        (pathBasenameStrip task.outputFile (pathExtname task.outputFile)
          ++ expectedExtFor task.downloadType)) = .ok s →
      locateActualFile fs task = some (pathJoin task.directory
        (pathBasenameStrip task.outputFile (pathExtname task.outputFile)
          ++ expectedExtFor task.downloadType)))
    ∧ (∀ (fs : FSOracle) (task : DownloadTask) (e1 e2 : FsError)
        (files : List String) (stats : List (String × FSStat)),
      fs.stat task.outputFile = .error e1 →
      fs.stat (pathJoin task.directory
        (pathBasenameStrip task.outputFile (pathExtname task.outputFile)
          ++ expectedExtFor task.downloadType)) = .error e2 →
      fs.readdir task.directory = .ok files →
      files.filter (fun f => strEndsWith f (expectedExtFor task.downloadType)) ≠ [] →
      listStats fs task.directory
        (files.filter (fun f => strEndsWith f (expectedExtFor task.downloadType))) = .ok stats →
      ∃ c st, locateActualFile fs task = some c ∧ (c, st) ∈ stats
        ∧ ∀ y ∈ stats, y.2.mtimeMs ≤ st.mtimeMs)
    ∧ (∀ (fs : FSOracle) (fuel : ℕ) (task : DownloadTask),
      locateActualFile fs task = none →
      task.outputFile ≠ "" →
      task.directory ≠ "" →
      finalizeDownload fs fuel task = ⟨some task.outputFile, task, none⟩) := by
  refine ⟨?_, ?_, ?_, ?_⟩
  · intro fs task s h
    unfold locateActualFile
    rw [h]
  · intro fs task e s h1 h2
    unfold locateActualFile
    rw [h1]
    dsimp only
    rw [h2]
  · intro fs task e1 e2 files stats h1 h2 h3 h4 h5
    have hempty : (files.filter
        (fun f => strEndsWith f (expectedExtFor task.downloadType))).isEmpty = false := by
      simpa using h4
    unfold locateActualFile
    rw [h1]
    dsimp only
    rw [h2]
    dsimp only
    rw [h3]
    dsimp only
    rw [hempty]
    simp only [Bool.false_eq_true, if_false]
    rw [h5]
    dsimp only
    cases stats with
    | nil =>
      have hl := listStats_length fs task.directory _ _ h5
      simp only [List.length_nil] at hl
      exact absurd (List.length_eq_zero.mp hl.symm) h4
    | cons x xs =>
      rcases foldl_max_spec xs x with ⟨hmem, hxle, hall⟩
      refine ⟨_, (List.foldl
          (fun best y => if y.2.mtimeMs > best.2.mtimeMs then y else best) x xs).2,
        rfl, ?_, ?_⟩
      · simpa using hmem
      · intro y hy
        rcases List.mem_cons.mp hy with h | h
        · exact h ▸ hxle
        · exact hall y h
  · intro fs fuel task hloc h1 h2
    unfold finalizeDownload
    have hcond : ¬(task.outputFile = "" ∨ task.directory = "") := by
      rintro (hc | hc)
      · exact h1 hc
      · exact h2 hc
    rw [if_neg hcond]
    dsimp only
    rw [hloc]

/-- A directory holding only `v.mp3` (strategy 2's probe target for the
task recorded as `v.opus`). -/
def fsMp3 : FSOracle := fsOfList [("/d/v.mp3", ⟨3, 9⟩)] "/d" ["v.mp3"]

/-- Two `.mp4` files of different modification times. -/
def fsTwoMp4 : FSOracle :=
  fsOfList [("/d/a.mp4", ⟨1, 0⟩), ("/d/b.mp4", ⟨5, 0⟩)] "/d" ["a.mp4", "b.mp4"]

/-- A video task whose recorded path matches none of the on-disk files
directly. -/
def strat3Task : DownloadTask := { sampleTask with outputFile := "/d/zz.mp4" }

/-- Witness for C5's four conjuncts at concrete inputs. -/
theorem finalizeDownload_location_strategy_witness :
    locateActualFile fsClip1 sampleTask = some sampleTask.outputFile
      ∧ locateActualFile fsMp3 cexAudioTask = some (pathJoin cexAudioTask.directory
          (pathBasenameStrip cexAudioTask.outputFile (pathExtname cexAudioTask.outputFile)
            ++ expectedExtFor cexAudioTask.downloadType))
      ∧ (∃ c st, locateActualFile fsTwoMp4 strat3Task = some c
          ∧ (c, st) ∈ [(pathJoin "/d" "a.mp4", (⟨1, 0⟩ : FSStat)),
                       (pathJoin "/d" "b.mp4", (⟨5, 0⟩ : FSStat))]
          ∧ ∀ y ∈ [(pathJoin "/d" "a.mp4", (⟨1, 0⟩ : FSStat)),
                   (pathJoin "/d" "b.mp4", (⟨5, 0⟩ : FSStat))], y.2.mtimeMs ≤ st.mtimeMs)
      ∧ finalizeDownload fsEnoent 8 sampleTask = ⟨some sampleTask.outputFile, sampleTask, none⟩ :=
  ⟨finalizeDownload_location_strategy.1 fsClip1 sampleTask ⟨0, 0⟩ rfl,
   finalizeDownload_location_strategy.2.1 fsMp3 cexAudioTask .enoent ⟨3, 9⟩ rfl rfl,
   finalizeDownload_location_strategy.2.2.1 fsTwoMp4 strat3Task .enoent .enoent
     ["a.mp4", "b.mp4"]
     [(pathJoin "/d" "a.mp4", ⟨1, 0⟩), (pathJoin "/d" "b.mp4", ⟨5, 0⟩)]
     rfl rfl rfl (by decide) rfl,
   finalizeDownload_location_strategy.2.2.2 fsEnoent 8 sampleTask rfl
     (by decide) (by decide)⟩

/-- Discriminator: is this a `completed` event? -/
def isCompletedEvt : DownloadEvent → Bool
  | .completedEvt _ _ _ _ _ => true
  | _ => false

/-- The task id an event is about. -/
def eventId : DownloadEvent → String
  | .queuedEvt i => i
  | .progress p => p.id
  | .completedEvt i _ _ _ _ => i
  | .failedEvt i _ => i

/-- `finalizeDownload` mutates only the task's `outputFile`: status, id
and directory come through unchanged on every branch, for every
filesystem oracle. -/
lemma finalizeDownload_task_fields (fs : FSOracle) (fuel : ℕ) (task : DownloadTask) :
    (finalizeDownload fs fuel task).task.status = task.status
    ∧ (finalizeDownload fs fuel task).task.id = task.id
    ∧ (finalizeDownload fs fuel task).task.directory = task.directory := by
  unfold finalizeDownload
  by_cases hg : task.outputFile = "" ∨ task.directory = ""
  · rw [if_pos hg]
    exact ⟨rfl, rfl, rfl⟩
  · rw [if_neg hg]
    dsimp only
    cases hloc : locateActualFile fs task with
    | none => exact ⟨rfl, rfl, rfl⟩
    | some a =>
      dsimp only
      cases hfin : ensureFinalFilePath fs fuel task.directory
          (match task.title with
            | some t => t
            | none => deriveTitleFromUrl task.url)
          (if pathExtname a = "" then expectedExtFor task.downloadType else pathExtname a)
          (some a) with
      | error e => exact ⟨rfl, rfl, rfl⟩
      | ok target =>
        dsimp only
        by_cases hres : pathResolve target = pathResolve a
        · rw [if_pos hres]
          exact ⟨rfl, rfl, rfl⟩
        · rw [if_neg hres]
          cases fs.rename a target with
          | ok _ => exact ⟨rfl, rfl, rfl⟩
          | error _ => exact ⟨rfl, rfl, rfl⟩

/-- C6: for every task and every filesystem behaviour — including
oracles whose `stat`/`readdir`/`rename` reject — `finalizeDownload`
returns the best-known output path (its mutated task's `outputFile`,
`none` only for the degenerate no-path/no-directory task), and the
zero-exit close handler always marks the task completed and emits
exactly one event, a `completed` event for that task: a finalization
error can neither fail the task nor suppress the completed event. -/
theorem finalize_errors_never_fail_completion :
    (∀ (fs : FSOracle) (fuel : ℕ) (task : DownloadTask),
      (finalizeDownload fs fuel task).result =
        if task.outputFile = "" ∨ task.directory = "" then none
        else some (finalizeDownload fs fuel task).task.outputFile)
    ∧ (∀ (fs : FSOracle) (fuel : ℕ) (task : DownloadTask),
      (handleProcessClose fs fuel task (some 0)).1.status = DownloadStatus.completed
      ∧ ∃ ev, (handleProcessClose fs fuel task (some 0)).2 = [ev]
          ∧ isCompletedEvt ev = true ∧ eventId ev = task.id) := by
  constructor
  · intro fs fuel task
    unfold finalizeDownload
    by_cases hg : task.outputFile = "" ∨ task.directory = ""
    · rw [if_pos hg, if_pos hg]
    · rw [if_neg hg, if_neg hg]
      dsimp only
      cases hloc : locateActualFile fs task with
      | none => rfl
      | some a =>
        dsimp only
        cases hfin : ensureFinalFilePath fs fuel task.directory
            (match task.title with
              | some t => t
              | none => deriveTitleFromUrl task.url)
            (if pathExtname a = "" then expectedExtFor task.downloadType else pathExtname a)
            (some a) with
        | error e => rfl
        | ok target =>
          dsimp only
          by_cases hres : pathResolve target = pathResolve a
          · rw [if_pos hres]
          · rw [if_neg hres]
            cases fs.rename a target with
            | ok _ => rfl
            | error _ => rfl
  · intro fs fuel task
    unfold handleProcessClose
    rw [if_pos rfl]
    dsimp only
    constructor
    · split
      · split
        · have h := (finalizeDownload_task_fields fs fuel { task with status := .completed }).1
          simpa using h
        · have h := (finalizeDownload_task_fields fs fuel { task with status := .completed }).1
          simpa using h
      · have h := (finalizeDownload_task_fields fs fuel { task with status := .completed }).1
        simpa using h
    · have hid1 := (finalizeDownload_task_fields fs fuel { task with status := .completed }).2.1
      refine ⟨_, rfl, rfl, ?_⟩
      split
      · split
        · simpa using hid1
        · simpa using hid1
      · simpa using hid1

/-- A non-empty `path.extname` result always starts with a dot. -/
lemma pathExtname_startsWith_dot (p : String) (h : pathExtname p ≠ "") :
    strStartsWith (pathExtname p) "." = true := by
  unfold pathExtname at h ⊢
  dsimp only at h ⊢
  split at h
  · exact absurd rfl h
  · split at h
    · exact absurd rfl h
    · rename_i h1 h2
      rw [if_neg h1, if_neg h2]
      simp [strStartsWith, List.isPrefixOf]

/-- C7: the post-download resolver is idempotent.  A probed candidate
equal (under `path.resolve`) to the current file's path is accepted
immediately, regardless of the filesystem; consequently, finalizing a
task whose located file is already named exactly as its resolved target
(first candidate of its own title and extension) issues no rename and
returns the same path with the task unchanged. -/
theorem ensureFinalFilePath_idempotent :
    (∀ (fs : FSOracle) (directory sanitized safeExt cp : String) (attempt fuel : ℕ),
      0 < fuel →
      pathResolve (finalCandidatePath directory sanitized safeExt attempt) = pathResolve cp →
      ensureFinalLoop fs directory sanitized safeExt (some cp) attempt fuel
        = .ok (finalCandidatePath directory sanitized safeExt attempt))
    ∧ (∀ (fs : FSOracle) (fuel : ℕ) (task : DownloadTask) (ttl : String) (s : FSStat),
      0 < fuel →
      task.outputFile ≠ "" →
      task.directory ≠ "" →
      fs.stat task.outputFile = .ok s →
      task.title = some ttl →
      pathExtname task.outputFile ≠ "" →
      finalCandidatePath task.directory (sanitizeFilename ttl) (pathExtname task.outputFile) 0
        = task.outputFile →
      finalizeDownload fs fuel task = ⟨some task.outputFile, task, none⟩) := by
  have loopAccept : ∀ (fs : FSOracle) (directory sanitized safeExt cp : String)
      (attempt fuel : ℕ), 0 < fuel →
      pathResolve (finalCandidatePath directory sanitized safeExt attempt) = pathResolve cp →
      ensureFinalLoop fs directory sanitized safeExt (some cp) attempt fuel
        = .ok (finalCandidatePath directory sanitized safeExt attempt) := by
    intro fs directory sanitized safeExt cp attempt fuel hf h
    cases fuel with
    | zero => omega
    | succ fuel =>
      unfold ensureFinalLoop
      dsimp only
      rw [if_pos]
      simp only [Option.any_some]
      exact decide_eq_true h
  refine ⟨loopAccept, ?_⟩
  intro fs fuel task ttl s hf h1 h2 h3 h4 h5 h6
  have hloc : locateActualFile fs task = some task.outputFile := by
    unfold locateActualFile
    rw [h3]
  have hguard : ¬(task.outputFile = "" ∨ task.directory = "") := by
    rintro (hc | hc)
    · exact h1 hc
    · exact h2 hc
  unfold finalizeDownload
  rw [if_neg hguard]
  dsimp only
  rw [hloc]
  dsimp only
  rw [if_neg h5, h4]
  dsimp only
  unfold ensureFinalFilePath
  dsimp only
  rw [if_pos (pathExtname_startsWith_dot task.outputFile h5)]
  rw [loopAccept fs task.directory (sanitizeFilename ttl) (pathExtname task.outputFile)
    task.outputFile 0 fuel hf (by rw [h6])]
  dsimp only
  rw [h6]
  rw [if_pos rfl]
  rw [← h4]

/-- Witness for C7 at a concrete input: the file `clip.mp4` exists and
is already named as its resolved target, so no rename is issued. -/
theorem ensureFinalFilePath_idempotent_witness :
    ensureFinalLoop fsClip1 "/d" "clip" ".mp4" (some "/d/clip.mp4") 0 5
        = .ok (finalCandidatePath "/d" "clip" ".mp4" 0)
      ∧ finalizeDownload fsClip1 5 sampleTask
        = ⟨some sampleTask.outputFile, sampleTask, none⟩ :=
  ⟨ensureFinalFilePath_idempotent.1 fsClip1 "/d" "clip" ".mp4" "/d/clip.mp4" 0 5
      (by norm_num) (by rfl),
   ensureFinalFilePath_idempotent.2 fsClip1 5 sampleTask "clip" ⟨0, 0⟩
      (by norm_num) (by decide) (by decide) rfl rfl (by decide) (by rfl)⟩

/-- The percent branch of `handleLine`, characterised once: on a line
whose trimmed form carries a percent match and is not a destination
announcement, the task becomes `downloading` and the progress payload
carries exactly the found subset — the parsed percent (0 for `NaN`), and
the speed/eta captures as `Option`s, `none` when their regexes miss. -/
lemma handleLine_percent_eq (task : DownloadTask) (raw tok : String)
    (hcap : percentCapture (jsTrim raw) = some tok)
    (hdest : strStartsWith (jsTrim raw) destinationMarker = false) :
    handleLine task raw =
      ({ task with status := .downloading },
       some (.progress
         { id := task.id
           status := some .downloading
           title := task.title
           filePath := some task.outputFile
           progress :=
             { percent := some (match jsParseFloatDigits tok with | some q => q | none => 0)
               speed := speedCapture (jsTrim raw)
               eta := etaCapture (jsTrim raw) }
           thumbnail := task.thumbnail
           duration := task.duration
           durationText := task.durationText
           source := task.source
           directory := task.directory })) := by
  have hne : jsTrim raw ≠ "" := by
    intro hc
    rw [hc] at hcap
    have hnone : percentCapture "" = none := rfl
    rw [hnone] at hcap
    cases hcap
  unfold handleLine
  dsimp only
  rw [if_neg hne, hdest]
  simp only [Bool.false_eq_true, if_false]
  rw [hcap]

/-- C8: every percent-update line sets status `downloading` and emits a
progress event carrying exactly the found subset of
`{percent, speed, eta}` (absent fields are `none`, not empty strings);
in particular Scenario B's line
`"[download]  42.5% at 1.2MiB/s ETA 00:10"` yields percent `42.5`,
speed `"1.2MiB/s"` and eta `"00:10"`. -/
theorem percent_line_progress_event :
    (∀ (task : DownloadTask) (raw tok : String),
      percentCapture (jsTrim raw) = some tok →
      strStartsWith (jsTrim raw) destinationMarker = false →
      handleLine task raw =
        ({ task with status := .downloading },
         some (.progress
           { id := task.id
             status := some .downloading
             title := task.title
             filePath := some task.outputFile
             progress :=
               { percent := some (match jsParseFloatDigits tok with | some q => q | none => 0)
                 speed := speedCapture (jsTrim raw)
                 eta := etaCapture (jsTrim raw) }
             thumbnail := task.thumbnail
             duration := task.duration
             durationText := task.durationText
             source := task.source
             directory := task.directory })))
    ∧ (∀ task : DownloadTask,
      handleLine task "[download]  42.5% at 1.2MiB/s ETA 00:10" =
        ({ task with status := .downloading },
         some (.progress
           { id := task.id
             status := some .downloading
             title := task.title
             filePath := some task.outputFile
             progress :=
               { percent := some (85 / 2 : ℚ)
                 speed := some "1.2MiB/s"
                 eta := some "00:10" }
             thumbnail := task.thumbnail
             duration := task.duration
             durationText := task.durationText
             source := task.source
             directory := task.directory }))) := by
  refine ⟨handleLine_percent_eq, ?_⟩
  intro task
  rw [handleLine_percent_eq task "[download]  42.5% at 1.2MiB/s ETA 00:10" "42.5"
    (by decide) (by decide)]
  have hjt : jsTrim "[download]  42.5% at 1.2MiB/s ETA 00:10"
      = "[download]  42.5% at 1.2MiB/s ETA 00:10" := by decide
  rw [hjt]
  have hs : speedCapture "[download]  42.5% at 1.2MiB/s ETA 00:10" = some "1.2MiB/s" := by decide
  have he : etaCapture "[download]  42.5% at 1.2MiB/s ETA 00:10" = some "00:10" := by decide
  have hparts : parseFloatParts "42.5" = some (42, 5, 1) := by decide
  have hp : (match jsParseFloatDigits "42.5" with
      | some q => q
      | none => (0 : ℚ)) = (85 / 2 : ℚ) := by
    rw [jsParseFloatDigits, hparts]
    dsimp only [Option.map]
    norm_num
  rw [hs, he, hp]

/-- Witness for C8 at Scenario B's concrete line and a concrete task. -/
theorem percent_line_progress_event_witness :
    handleLine sampleTask "[download]  42.5% at 1.2MiB/s ETA 00:10" =
      ({ sampleTask with status := .downloading },
       some (.progress
         { id := "t1"
           status := some .downloading
           title := some "clip"
           filePath := some "/d/clip.mp4"
           progress :=
             { percent := some (85 / 2 : ℚ)
               speed := some "1.2MiB/s"
               eta := some "00:10" }
           thumbnail := none
           duration := none
           durationText := none
           source := none
           directory := "/d" })) := by
  rw [percent_line_progress_event.1 sampleTask "[download]  42.5% at 1.2MiB/s ETA 00:10" "42.5"
    (by decide) (by decide)]
  have hjt : jsTrim "[download]  42.5% at 1.2MiB/s ETA 00:10"
      = "[download]  42.5% at 1.2MiB/s ETA 00:10" := by decide
  rw [hjt]
  have hs : speedCapture "[download]  42.5% at 1.2MiB/s ETA 00:10" = some "1.2MiB/s" := by decide
  have he : etaCapture "[download]  42.5% at 1.2MiB/s ETA 00:10" = some "00:10" := by decide
  have hparts : parseFloatParts "42.5" = some (42, 5, 1) := by decide
  have hp : (match jsParseFloatDigits "42.5" with
      | some q => q
      | none => (0 : ℚ)) = (85 / 2 : ℚ) := by
    rw [jsParseFloatDigits, hparts]
    dsimp only [Option.map]
    norm_num
  rw [hs, he, hp]
  rfl

/-- C10: the percent emitted from a percent-update line is always a
finite number: a `NaN` parse (e.g. a bare dot run) is replaced by `0`,
while any parsed value — including values above 100 — is emitted
unchanged, with no upper clamp at ingestion. -/
theorem percent_nan_zero_no_upper_clamp :
    (∀ (task : DownloadTask) (raw tok : String),
      percentCapture (jsTrim raw) = some tok →
      strStartsWith (jsTrim raw) destinationMarker = false →
      jsParseFloatDigits tok = none →
      handleLine task raw =
        ({ task with status := .downloading },
         some (.progress
           { id := task.id
             status := some .downloading
             title := task.title
             filePath := some task.outputFile
             progress :=
               { percent := some 0
                 speed := speedCapture (jsTrim raw)
                 eta := etaCapture (jsTrim raw) }
             thumbnail := task.thumbnail
             duration := task.duration
             durationText := task.durationText
             source := task.source
             directory := task.directory })))
    ∧ (∀ (task : DownloadTask) (raw tok : String) (q : ℚ),
      percentCapture (jsTrim raw) = some tok →
      strStartsWith (jsTrim raw) destinationMarker = false →
      jsParseFloatDigits tok = some q →
      handleLine task raw =
        ({ task with status := .downloading },
         some (.progress
           { id := task.id
             status := some .downloading
             title := task.title
             filePath := some task.outputFile
             progress :=
               { percent := some q
                 speed := speedCapture (jsTrim raw)
                 eta := etaCapture (jsTrim raw) }
             thumbnail := task.thumbnail
             duration := task.duration
             durationText := task.durationText
             source := task.source
             directory := task.directory }))) := by
  constructor
  · intro task raw tok hcap hdest hnan
    rw [handleLine_percent_eq task raw tok hcap hdest, hnan]
  · intro task raw tok q hcap hdest hval
    rw [handleLine_percent_eq task raw tok hcap hdest, hval]

/-- Witness for C10: the dot-run line emits percent `0`; the `250.5%`
line emits `250.5`, which exceeds 100. -/
theorem percent_nan_zero_no_upper_clamp_witness :
    handleLine sampleTask "[download] ...%" =
      ({ sampleTask with status := .downloading },
       some (.progress
         { id := "t1"
           status := some .downloading
           title := some "clip"
           filePath := some "/d/clip.mp4"
           progress := { percent := some 0, speed := none, eta := none }
           thumbnail := none
           duration := none
           durationText := none
           source := none
           directory := "/d" }))
    ∧ handleLine sampleTask "[download] 250.5%" =
      ({ sampleTask with status := .downloading },
       some (.progress
         { id := "t1"
           status := some .downloading
           title := some "clip"
           filePath := some "/d/clip.mp4"
           progress := { percent := some (501 / 2 : ℚ), speed := none, eta := none }
           thumbnail := none
           duration := none
           durationText := none
           source := none
           directory := "/d" }))
    ∧ (100 : ℚ) < 501 / 2 := by
  refine ⟨?_, ?_, by norm_num⟩
  · rw [percent_nan_zero_no_upper_clamp.1 sampleTask "[download] ...%" "..."
      (by decide) (by decide) (by decide)]
    have hjt : jsTrim "[download] ...%" = "[download] ...%" := by decide
    rw [hjt]
    have hs : speedCapture "[download] ...%" = none := by decide
    have he : etaCapture "[download] ...%" = none := by decide
    rw [hs, he]
    rfl
  · have hq : jsParseFloatDigits "250.5" = some (501 / 2 : ℚ) := by
      have hparts : parseFloatParts "250.5" = some (250, 5, 1) := by decide
      rw [jsParseFloatDigits, hparts]
      dsimp only [Option.map]
      norm_num
    rw [percent_nan_zero_no_upper_clamp.2 sampleTask "[download] 250.5%" "250.5" (501 / 2 : ℚ)
      (by decide) (by decide) hq]
    have hjt : jsTrim "[download] 250.5%" = "[download] 250.5%" := by decide
    rw [hjt]
    have hs : speedCapture "[download] 250.5%" = none := by decide
    have he : etaCapture "[download] 250.5%" = none := by decide
    rw [hs, he]
    rfl

/-- C9: the concurrency clamp returns the default 3 (not the lower
bound 1) for a non-finite coercion, otherwise rounds to the nearest
integer (`Math.round` = `⌊x + 1/2⌋`) and clamps into `[1, 10]`; both the
admission capacity (`getMaxConcurrentDownloads`) and the settings getter
IPC handler read through the clamp, so the effective limit is always an
integer in `[1, 10]`. -/
theorem clampConcurrentDownloads_spec :
    clampConcurrentDownloads none = 3
    ∧ (∀ q : ℚ, 1 ≤ clampConcurrentDownloads (some q) ∧ clampConcurrentDownloads (some q) ≤ 10)
    ∧ (∀ q : ℚ, 1 ≤ round q → round q ≤ 10 → clampConcurrentDownloads (some q) = round q)
    ∧ (∀ s : AppSettings,
        getMaxConcurrentDownloads s = clampConcurrentDownloads s.maxConcurrentDownloads
        ∧ ipcGetMaxConcurrentDownloads s = clampConcurrentDownloads s.maxConcurrentDownloads)
    ∧ (∀ s : AppSettings,
        1 ≤ getMaxConcurrentDownloads s ∧ getMaxConcurrentDownloads s ≤ 10) := by
  refine ⟨rfl, ?_, ?_, fun s => ⟨rfl, rfl⟩, ?_⟩
  · intro q
    unfold clampConcurrentDownloads
    dsimp only
    omega
  · intro q h1 h2
    unfold clampConcurrentDownloads
    dsimp only
    omega
  · intro s
    unfold getMaxConcurrentDownloads clampConcurrentDownloads
    cases s.maxConcurrentDownloads with
    | none => norm_num
    | some q => dsimp only; omega

/-- Witness for C9's rounding conjunct at the concrete input 3.5, which
rounds to 4 (half away from zero, like `Math.round` for positives). -/
theorem clampConcurrentDownloads_spec_witness :
    clampConcurrentDownloads (some (7 / 2 : ℚ)) = round ((7 : ℚ) / 2)
    ∧ round ((7 : ℚ) / 2) = 4 :=
  ⟨clampConcurrentDownloads_spec.2.2.1 (7 / 2)
      (by norm_num [round_eq]) (by norm_num [round_eq]),
   by norm_num [round_eq]⟩
